import Mathlib

/-!
Shallow embedding of the selection/rotation and composition core of
`fetch_and_display.py` (inky-photo-frame).

Calendar dates are absolute day numbers (`Int`); the month-day key of a
date (Python `strftime('%m-%d')`, SQL `TO_CHAR(..., 'MM-DD')`) is an
uninterpreted projection `cal : Int → String` passed as a parameter.
Store-access failures (connection failures and query exceptions, which the
Python code catches and converts to degraded return values) are modelled by
an explicit failure oracle.
-/

/-- Catalog Store row of the `assets` table: nullable storage key
(`image_proxy_name`), opaque id (`uuid`), display name and creation date
(absolute day number). -/
structure AssetRow where
  image_proxy_name : Option String
  uuid : String
  image_name : String
  image_creation_date : Int
deriving DecidableEq

/-- Display Log row of the `display_logs` table: image id, calendar date
shown (absolute day number) and device (frame) identifier. -/
structure DisplayLogRow where
  uuid : String
  display_date : Int
  frame_id : String
deriving DecidableEq

/-- Persistent state seen through the database connection: the Catalog
Store (`assets`) and the Display Log (`display_logs`). -/
structure DB where
  assets : List AssetRow
  display_logs : List DisplayLogRow
deriving DecidableEq

/-- Failure oracle for store accesses: `fetch_and_display.py` turns a
connection failure or query exception into a degraded return value, so each
kind of call carries a flag saying whether this call raises. -/
structure StoreBehavior where
  queryFail : String → Bool
  checkFail : String → Bool
  logFail : Bool

/-- Behavior of a store in which every access succeeds. -/
def noFail : StoreBehavior := ⟨fun _ => false, fun _ => false, false⟩

/-- Configured repeat-avoidance window in days (`IMAGE_REPEAT_THRESHOLD`
default). -/
def IMAGE_REPEAT_THRESHOLD : Nat := 10

/-- Configured fallback search horizon in days (`IMAGE_FALLBACK_SEARCH_DAYS`). -/
def IMAGE_FALLBACK_SEARCH_DAYS : Nat := 30

/-- Configured fallback candidate cap (`IMAGE_FALLBACK_LIMIT`). -/
def IMAGE_FALLBACK_LIMIT : Nat := 5

/-- The `WHERE` clause of `query_images_by_month_day`: the row's creation
date has the requested month-day key and `image_proxy_name IS NOT NULL`. -/
def matchesMonthDay (cal : Int → String) (md : String) (r : AssetRow) : Bool :=
  cal r.image_creation_date == md && r.image_proxy_name.isSome

/-- Ordering used by `ORDER BY image_creation_date DESC`. -/
def creationDesc (a b : AssetRow) : Prop :=
  b.image_creation_date ≤ a.image_creation_date

instance : DecidableRel creationDesc :=
  fun a b => inferInstanceAs (Decidable (b.image_creation_date ≤ a.image_creation_date))

instance : IsTotal AssetRow creationDesc :=
  ⟨fun a b => le_total b.image_creation_date a.image_creation_date⟩

instance : IsTrans AssetRow creationDesc :=
  ⟨fun _ _ _ hab hbc => le_trans hbc hab⟩

/-- Embedding of `query_images_by_month_day`: on a connection failure or a
query exception it logs and returns the empty list; otherwise it returns the
rows matching the month-day key (with non-null proxy name), ordered by
creation date descending. -/
def query_images_by_month_day (B : StoreBehavior) (cal : Int → String)
    (db : DB) (md : String) : List AssetRow :=
  if B.queryFail md then []
  else List.insertionSort creationDesc (db.assets.filter (matchesMonthDay cal md))

/-- Embedding of `check_image_displayed_recently`: on a connection failure
or exception it returns `false`; otherwise it reports whether a
`display_logs` row exists with this uuid, `display_date >= threshold_date`
and this frame id. -/
def check_image_displayed_recently (B : StoreBehavior) (db : DB)
    (frame : String) (uuid_val : String) (threshold_date : Int) : Bool :=
  if B.checkFail uuid_val then false
  else
    let count := db.display_logs.countP fun r =>
      r.uuid == uuid_val && decide (threshold_date ≤ r.display_date) && r.frame_id == frame
    decide (0 < count)

/-- Embedding of `log_image_displayed`: on a connection failure or exception
the store is left unchanged; otherwise the row is inserted only when no row
with the same `(uuid, display_date, frame_id)` already exists. -/
def log_image_displayed (B : StoreBehavior) (db : DB) (frame : String)
    (uuid_val : String) (display_date : Int) : DB :=
  if B.logFail then db
  else if (db.display_logs.countP fun r =>
      r.uuid == uuid_val && r.display_date == display_date && r.frame_id == frame) = 0 then
    { db with display_logs := db.display_logs ++ [⟨uuid_val, display_date, frame⟩] }
  else db

/-- The scan loop of `find_eligible_images_for_date`: walk the queried rows
in order, append each row not displayed recently to the accumulator, and
stop as soon as the accumulator reaches `limit` (the Python loop checks
`len(eligible) >= limit` at the end of each iteration). -/
def eligible_scan (B : StoreBehavior) (db : DB) (frame : String)
    (threshold_date : Int) (limit : Nat) :
    List AssetRow → List AssetRow → List AssetRow
  | elig, [] => elig
  | elig, img :: rest =>
    let elig2 :=
      if check_image_displayed_recently B db frame img.uuid threshold_date then elig
      else elig ++ [img]
    if limit ≤ elig2.length then elig2
    else eligible_scan B db frame threshold_date limit elig2 rest

/-- Embedding of `find_eligible_images_for_date`: query the month-day's
rows; if none, return `[]`; otherwise scan them in creation-date-descending
order collecting up to `limit` rows not displayed on or after
`today - repeat_threshold_days` by this frame. -/
def find_eligible_images_for_date (B : StoreBehavior) (db : DB)
    (frame : String) (cal : Int → String) (today : Int) (md : String)
    (repeat_threshold_days : Nat) (limit : Nat) : List AssetRow :=
  let images := query_images_by_month_day B cal db md
  if images.isEmpty then []
  else eligible_scan B db frame (today - (repeat_threshold_days : Int)) limit [] images

/-- The fallback loop of `find_images_for_today_and_fallback`
(`for i in range(1, IMAGE_FALLBACK_SEARCH_DAYS + 1)`): `i` is the current
offset, `remaining` the number of offsets still to try; the first day with a
non-empty eligible list is shuffled and returned with the fallback flag. -/
def fallback_walk (B : StoreBehavior) (db : DB) (frame : String)
    (cal : Int → String) (shuffle : List AssetRow → List AssetRow)
    (today : Int) : Nat → Nat → List AssetRow × Bool
  | _, 0 => ([], false)
  | i, Nat.succ remaining =>
    let fallback_images := find_eligible_images_for_date B db frame cal today
      (cal (today - (i : Int))) IMAGE_REPEAT_THRESHOLD IMAGE_FALLBACK_LIMIT
    if fallback_images.isEmpty then
      fallback_walk B db frame cal shuffle today (i + 1) remaining
    else (shuffle fallback_images, true)

/-- Embedding of `find_images_for_today_and_fallback`: query today's
month-day; if any rows are found return them all unfiltered with
`fallback_used = false`; otherwise walk back day by day up to
`IMAGE_FALLBACK_SEARCH_DAYS`, returning the first day's eligible rows,
shuffled, with `fallback_used = true`; if nothing is found return
`([], false)`. The shuffle (`random.shuffle`) is a parameter. -/
def find_images_for_today_and_fallback (B : StoreBehavior) (db : DB)
    (frame : String) (cal : Int → String)
    (shuffle : List AssetRow → List AssetRow) (today : Int) :
    List AssetRow × Bool :=
  let today_images := query_images_by_month_day B cal db (cal today)
  if today_images.isEmpty then
    fallback_walk B db frame cal shuffle today 1 IMAGE_FALLBACK_SEARCH_DAYS
  else (today_images, false)

/-- State-passing variant of `query_images_by_month_day`: a `SELECT` leaves
the store unchanged. -/
def query_images_by_month_dayM (B : StoreBehavior) (cal : Int → String)
    (md : String) (db : DB) : List AssetRow × DB :=
  (query_images_by_month_day B cal db md, db)

/-- State-passing variant of `check_image_displayed_recently`: a `SELECT`
leaves the store unchanged. -/
def check_image_displayed_recentlyM (B : StoreBehavior) (frame : String)
    (uuid_val : String) (threshold_date : Int) (db : DB) : Bool × DB :=
  (check_image_displayed_recently B db frame uuid_val threshold_date, db)

/-- State-passing variant of `log_image_displayed`: this call may `INSERT`. -/
def log_image_displayedM (B : StoreBehavior) (frame : String)
    (uuid_val : String) (display_date : Int) (db : DB) : Unit × DB :=
  ((), log_image_displayed B db frame uuid_val display_date)

/-- State-passing variant of the eligibility scan, threading the store
through each `check_image_displayed_recently` call. -/
def eligible_scanM (B : StoreBehavior) (frame : String)
    (threshold_date : Int) (limit : Nat) :
    List AssetRow → List AssetRow → DB → List AssetRow × DB
  | elig, [], db => (elig, db)
  | elig, img :: rest, db =>
    let p := check_image_displayed_recentlyM B frame img.uuid threshold_date db
    let elig2 := if p.1 then elig else elig ++ [img]
    if limit ≤ elig2.length then (elig2, p.2)
    else eligible_scanM B frame threshold_date limit elig2 rest p.2

/-- State-passing variant of `find_eligible_images_for_date`. -/
def find_eligible_images_for_dateM (B : StoreBehavior) (frame : String)
    (cal : Int → String) (today : Int) (md : String)
    (repeat_threshold_days : Nat) (limit : Nat) (db : DB) :
    List AssetRow × DB :=
  let q := query_images_by_month_dayM B cal md db
  if q.1.isEmpty then ([], q.2)
  else eligible_scanM B frame (today - (repeat_threshold_days : Int)) limit [] q.1 q.2

/-- State-passing variant of the fallback loop. -/
def fallback_walkM (B : StoreBehavior) (frame : String)
    (cal : Int → String) (shuffle : List AssetRow → List AssetRow)
    (today : Int) : Nat → Nat → DB → (List AssetRow × Bool) × DB
  | _, 0, db => (([], false), db)
  | i, Nat.succ remaining, db =>
    let p := find_eligible_images_for_dateM B frame cal today
      (cal (today - (i : Int))) IMAGE_REPEAT_THRESHOLD IMAGE_FALLBACK_LIMIT db
    if p.1.isEmpty then
      fallback_walkM B frame cal shuffle today (i + 1) remaining p.2
    else ((shuffle p.1, true), p.2)

/-- State-passing variant of `find_images_for_today_and_fallback`: the
whole selection pass, threading the store through every query it issues. -/
def find_images_for_today_and_fallbackM (B : StoreBehavior) (frame : String)
    (cal : Int → String) (shuffle : List AssetRow → List AssetRow)
    (today : Int) (db : DB) : (List AssetRow × Bool) × DB :=
  let q := query_images_by_month_dayM B cal (cal today) db
  if q.1.isEmpty then fallback_walkM B frame cal shuffle today 1 IMAGE_FALLBACK_SEARCH_DAYS q.2
  else ((q.1, false), q.2)

/-- Relative-age label computed in `overlay_date_text`:
`years_ago = current_year - creation_year`, and the text is
`f"{years_ago} years ago..." if years_ago > 1 else "Last year..."`. -/
def years_ago_text (current_year image_year : Int) : String :=
  let years_ago := current_year - image_year
  if 1 < years_ago then toString years_ago ++ " years ago..." else "Last year..."

/-- Branch structure of `overlay_date_text` for the relative-age label: the
fallback branch uses today's year and the photo's creation year; the
non-fallback branch uses the same two years with the same formula. -/
def overlay_years_ago_label (fallback_used : Bool) (now_year image_year : Int) : String :=
  if fallback_used then years_ago_text now_year image_year
  else years_ago_text now_year image_year

/-- Month names as produced by `strftime('%B')`. -/
def month_name : Nat → String
  | 1 => "January"
  | 2 => "February"
  | 3 => "March"
  | 4 => "April"
  | 5 => "May"
  | 6 => "June"
  | 7 => "July"
  | 8 => "August"
  | 9 => "September"
  | 10 => "October"
  | 11 => "November"
  | 12 => "December"
  | _ => ""

/-- Day-of-month suffix choice of `format_date_ordinal`: `'th'` when
`11 <= day % 100 <= 13`, otherwise `suffix_map.get(day % 10, 'th')` with
`{1: 'st', 2: 'nd', 3: 'rd'}`. -/
def day_suffix (day : Nat) : String :=
  if 11 ≤ day % 100 ∧ day % 100 ≤ 13 then "th"
  else
    match day % 10 with
    | 1 => "st"
    | 2 => "nd"
    | 3 => "rd"
    | _ => "th"

/-- Embedding of `format_date_ordinal`: `f"{%B} {day}{suffix}, {year}"`. -/
def format_date_ordinal (year month day : Nat) : String :=
  month_name month ++ " " ++ toString day ++ day_suffix day ++ ", " ++ toString year

/-- Mirror of the spec's wording of the suffix rule, kept separate from the
code's `day_suffix` so the two can be compared: days 11-13 always get `th`,
otherwise the suffix depends only on the last digit of the day. -/
def spec_day_suffix (day : Nat) : String :=
  if 11 ≤ day ∧ day ≤ 13 then "th"
  else if day % 10 = 1 then "st"
  else if day % 10 = 2 then "nd"
  else if day % 10 = 3 then "rd"
  else "th"

/-- Embedding of `choose_text_color_for_background` on the cropped label
region, given as the list of its 8-bit grayscale pixel values: build the
256-bin histogram, sum it into `total_pixels`, return `"white"` when the
region is empty, otherwise `"black"` exactly when the histogram-weighted
mean brightness exceeds 128 (the Python float division is modelled over
`ℚ`). -/
def choose_text_color_for_background (region : List Nat) : String :=
  let hist : Nat → Nat := fun i => (region.filter fun p => p = i).length
  let total_pixels := ((List.range 256).map hist).sum
  if total_pixels = 0 then "white"
  else if 128 < (((List.range 256).map fun i : Nat => (i : ℚ) * (hist i : ℚ)).sum / (total_pixels : ℚ))
    then "black" else "white"

/-- The `round_aspect` helper inside PIL's `Image.thumbnail`:
`max(min(math.floor(number), math.ceil(number), key=key), 1)` — between the
floor and the ceiling of `number` pick the one with the smaller key (the
floor on a tie, as Python's `min` does), then clamp it to at least 1. The
Python float arithmetic is modelled exactly over `ℚ`. -/
def round_aspect (number : ℚ) (key : ℤ → ℚ) : ℤ :=
  max (if key ⌊number⌋ ≤ key ⌈number⌉ then ⌊number⌋ else ⌈number⌉) 1

attribute [irreducible] round_aspect

/-- Size computation of PIL's `Image.thumbnail((tw, th))` as called by
`resize_image`: if the image already fits it is left alone; otherwise the
target box is corrected to the image's aspect ratio `w / h` — when the box
is at least as wide as the aspect ratio, the height `th` is kept and the
width is rounded from `th * aspect`, else the width `tw` is kept and the
height is rounded from `tw / aspect`. -/
def thumbnail_size (w h tw th : ℤ) : ℤ × ℤ :=
  if tw ≥ w ∧ th ≥ h then (w, h)
  else
    let aspect : ℚ := (w : ℚ) / (h : ℚ)
    if (tw : ℚ) / (th : ℚ) ≥ aspect then
      (round_aspect ((th : ℚ) * aspect) fun n => |aspect - (n : ℚ) / (th : ℚ)|, th)
    else
      (tw, round_aspect ((tw : ℚ) / aspect) fun n =>
        if n = 0 then 0 else |aspect - (tw : ℚ) / (n : ℚ)|)

/-- Geometry produced by `resize_image`: the canvas created at exactly the
target resolution, the centering offsets computed by floor division
(`(target - fitted) // 2`), and the fitted image's dimensions. -/
structure ResizeGeometry where
  canvasW : ℤ
  canvasH : ℤ
  xOffset : ℤ
  yOffset : ℤ
  fitW : ℤ
  fitH : ℤ
deriving DecidableEq

/-- Embedding of the geometric part of `resize_image`: make a canvas of the
target resolution, thumbnail the source image into the target box, and
center it with `x_offset = (tw - w') // 2`, `y_offset = (th - h') // 2`. -/
def resize_image (w h tw th : ℤ) : ResizeGeometry :=
  let fit := thumbnail_size w h tw th
  { canvasW := tw
    canvasH := th
    xOffset := (tw - fit.1) / 2
    yOffset := (th - fit.2) / 2
    fitW := fit.1
    fitH := fit.2 }

/-- C8: `format_date_ordinal` selects the day-of-month suffix by the rule
"days 11-13 always get th; otherwise the last digit decides (1 st, 2 nd,
3 rd, else th)" for every day 1..31, and in particular day 1 maps to "1st",
2 to "2nd", 3 to "3rd", 11 to "11th", 21 to "21st" and 22 to "22nd". -/
theorem day_suffix_rule :
    (∀ day : Nat, day ≤ 31 → 1 ≤ day → day_suffix day = spec_day_suffix day) ∧
    toString (1 : Nat) ++ day_suffix 1 = "1st" ∧
    toString (2 : Nat) ++ day_suffix 2 = "2nd" ∧
    toString (3 : Nat) ++ day_suffix 3 = "3rd" ∧
    toString (11 : Nat) ++ day_suffix 11 = "11th" ∧
    toString (21 : Nat) ++ day_suffix 21 = "21st" ∧
    toString (22 : Nat) ++ day_suffix 22 = "22nd" := by
  refine ⟨?_, rfl, rfl, rfl, rfl, rfl, rfl⟩
  decide

/-- Witness for C8 at day 21. -/
theorem day_suffix_rule_witness : day_suffix 21 = spec_day_suffix 21 :=
  day_suffix_rule.1 21 (by decide) (by decide)

/-- C3 counterexample: when the photo was created in the current year the
difference `N = currentYear - imageCreationYear` is `0`, which is not `1`,
yet the rendered label is "Last year..." rather than "0 years ago...". -/
theorem years_ago_label_zero_years :
    overlay_years_ago_label false 2024 2024 = "Last year..." ∧
    overlay_years_ago_label false 2024 2024
      ≠ toString ((2024 : Int) - 2024) ++ " years ago..." ∧
    (2024 : Int) - 2024 ≠ 1 := by
  refine ⟨rfl, ?_, by decide⟩
  decide

/-- C3 amended: in both the fallback and non-fallback branches the
relative-age label is `"N years ago..."` with `N = currentYear -
imageCreationYear` whenever `N ≥ 2`, and `"Last year..."` whenever `N ≤ 1`
(including `N = 0` and negative `N`), the age always being computed against
the photo's true creation year. -/
theorem years_ago_label_spec (fb : Bool) (cy iy : Int) :
    (1 < cy - iy →
      overlay_years_ago_label fb cy iy = toString (cy - iy) ++ " years ago...") ∧
    (cy - iy ≤ 1 → overlay_years_ago_label fb cy iy = "Last year...") := by
  simp only [overlay_years_ago_label, years_ago_text]
  constructor
  · intro h
    cases fb <;> rw [if_pos h] <;> simp
  · intro h
    cases fb <;> rw [if_neg (not_lt.2 h)] <;> simp

/-- Witness for C3's amended claim at 14 years of difference. -/
theorem years_ago_label_spec_witness :
    overlay_years_ago_label false 2024 2010 = "14 years ago..." := by
  have h := (years_ago_label_spec false 2024 2010).1 (by decide)
  rw [h]
  rfl

/-- The 256-bin histogram of an 8-bit region sums to the number of pixels. -/
lemma sum_hist_length (region : List Nat) (h : ∀ p ∈ region, p < 256) :
    (∑ i in Finset.range 256, (region.filter fun p => p = i).length) = region.length := by
  induction region with
  | nil => simp
  | cons p rest ih =>
    have hp : p < 256 := h p (List.mem_cons_self _ _)
    have hr : ∀ q ∈ rest, q < 256 := fun q hq => h q (List.mem_cons_of_mem _ hq)
    calc (∑ i in Finset.range 256, ((p :: rest).filter fun q => q = i).length)
        = ∑ i in Finset.range 256,
            ((if p = i then 1 else 0) + (rest.filter fun q => q = i).length) := by
          refine Finset.sum_congr rfl fun i _ => ?_
          by_cases hpi : p = i <;> simp [List.filter_cons, hpi] <;> omega
      _ = (∑ i in Finset.range 256, if p = i then 1 else 0)
            + ∑ i in Finset.range 256, (rest.filter fun q => q = i).length :=
          Finset.sum_add_distrib
      _ = 1 + rest.length := by
          rw [ih hr, Finset.sum_ite_eq]
          simp [Finset.mem_range.mpr hp]
      _ = (p :: rest).length := by simp [Nat.add_comm]

/-- The histogram-weighted brightness sum equals the plain sum of the
region's pixel values. -/
lemma sum_hist_weighted (region : List Nat) (h : ∀ p ∈ region, p < 256) :
    (∑ i in Finset.range 256, (i : ℚ) * ((region.filter fun p => p = i).length : ℚ))
      = (region.map fun p => (p : ℚ)).sum := by
  induction region with
  | nil => simp
  | cons p rest ih =>
    have hp : p < 256 := h p (List.mem_cons_self _ _)
    have hr : ∀ q ∈ rest, q < 256 := fun q hq => h q (List.mem_cons_of_mem _ hq)
    calc (∑ i in Finset.range 256, (i : ℚ) * (((p :: rest).filter fun q => q = i).length : ℚ))
        = ∑ i in Finset.range 256,
            ((if p = i then (i : ℚ) else 0)
              + (i : ℚ) * ((rest.filter fun q => q = i).length : ℚ)) := by
          refine Finset.sum_congr rfl fun i _ => ?_
          by_cases hpi : p = i <;> simp [List.filter_cons, hpi] <;> ring
      _ = (∑ i in Finset.range 256, if p = i then (i : ℚ) else 0)
            + ∑ i in Finset.range 256, (i : ℚ) * ((rest.filter fun q => q = i).length : ℚ) :=
          Finset.sum_add_distrib
      _ = (p : ℚ) + (rest.map fun q => (q : ℚ)).sum := by
          rw [ih hr, Finset.sum_ite_eq]
          simp [Finset.mem_range.mpr hp]
      _ = ((p :: rest).map fun q => (q : ℚ)).sum := by simp

/-- C10: `choose_text_color_for_background` is total on 8-bit regions and
returns only "black" or "white"; it returns "white" on an empty region
(guarding the division), and returns "black" exactly when the mean
brightness of the region exceeds 128. -/
theorem choose_text_color_spec (region : List Nat) (hr : ∀ p ∈ region, p < 256) :
    (choose_text_color_for_background region = "black" ∨
      choose_text_color_for_background region = "white") ∧
    (region = [] → choose_text_color_for_background region = "white") ∧
    (choose_text_color_for_background region = "black" ↔
      region ≠ [] ∧ 128 < (region.map fun p => (p : ℚ)).sum / (region.length : ℚ)) := by
  have htot : ((List.range 256).map fun i => (region.filter fun p => p = i).length).sum
      = region.length := sum_hist_length region hr
  have hw : (((List.range 256).map fun i : Nat =>
        (i : ℚ) * (((region.filter fun p => p = i).length : Nat) : ℚ)).sum)
      = (region.map fun p => (p : ℚ)).sum := sum_hist_weighted region hr
  simp only [choose_text_color_for_background, htot, hw]
  rcases eq_or_ne region [] with hnil | hnil
  · subst hnil
    simp
  · have hlen : region.length ≠ 0 := fun hc => hnil (List.length_eq_zero.mp hc)
    rw [if_neg hlen]
    by_cases hb : 128 < (region.map fun p => (p : ℚ)).sum / (region.length : ℚ)
    · rw [if_pos hb]
      exact ⟨Or.inl rfl, fun hc => absurd hc hnil, ⟨fun _ => ⟨hnil, hb⟩, fun _ => rfl⟩⟩
    · rw [if_neg hb]
      refine ⟨Or.inr rfl, fun _ => rfl, ?_⟩
      constructor
      · intro hc
        exact absurd hc (by decide)
      · intro hc
        exact absurd hc.2 hb

/-- Witness for C10 on a bright 3-pixel region. -/
theorem choose_text_color_spec_witness :
    choose_text_color_for_background [200, 200, 200] = "black" := by
  have h := choose_text_color_spec [200, 200, 200] (by decide)
  exact h.2.2.mpr ⟨by decide, by norm_num⟩

/-- Number of Display Log entries carrying a given
`(imageId, displayDate, deviceId)` key. -/
def log_count (db : DB) (frame u : String) (d : Int) : Nat :=
  db.display_logs.countP fun r =>
    r.uuid == u && r.display_date == d && r.frame_id == frame

/-- Display Log invariant: at most one entry per
`(imageId, displayDate, deviceId)` triple. -/
def at_most_one_per_key (db : DB) : Prop :=
  ∀ frame u d, log_count db frame u d ≤ 1

/-- C6: on a Display Log holding no entry for this image id,
`wasDisplayedSince(id, t)` evaluated right after `recordDisplayed(id, d)`
for this device returns `true` exactly for thresholds `t ≤ d` and `false`
for `t > d`. -/
theorem was_displayed_since_after_record (db : DB) (frame id : String)
    (d t : Int) (hno : ∀ r ∈ db.display_logs, r.uuid ≠ id) :
    check_image_displayed_recently noFail
        (log_image_displayed noFail db frame id d) frame id t
      = decide (t ≤ d) := by
  have hzero : (db.display_logs.countP fun r =>
      r.uuid == id && r.display_date == d && r.frame_id == frame) = 0 := by
    rw [List.countP_eq_zero]
    intro r hrm
    simp [hno r hrm]
  have hzero2 : (db.display_logs.countP fun r =>
      r.uuid == id && decide (t ≤ r.display_date) && r.frame_id == frame) = 0 := by
    rw [List.countP_eq_zero]
    intro r hrm
    simp [hno r hrm]
  simp only [log_image_displayed, check_image_displayed_recently, noFail,
    if_neg, Bool.false_eq_true, if_false, hzero, if_pos, if_true]
  simp only [List.countP_append, hzero2, Nat.zero_add]
  by_cases ht : t ≤ d
  · simp [List.countP_cons, ht]
  · simp [List.countP_cons, ht]

/-- Witness for C6: an empty log, one record call, one check call. -/
theorem was_displayed_since_after_record_witness :
    check_image_displayed_recently noFail
        (log_image_displayed noFail ⟨[], []⟩ "frameA" "img1" 100) "frameA" "img1" 99
      = true := by
  have h := was_displayed_since_after_record ⟨[], []⟩ "frameA" "img1" 100 99 (by simp)
  rw [h]
  decide

/-- C5: `recordDisplayed` is idempotent per `(imageId, date, deviceId)` —
two identical calls leave exactly one Display Log entry for the key — and
every call (including failing ones) preserves the at-most-one-entry-per-key
invariant, enforced by the existence check preceding the insert. -/
theorem record_displayed_idempotent (B : StoreBehavior) (db : DB)
    (frame u : String) (d : Int) (hinv : at_most_one_per_key db) :
    log_count (log_image_displayed noFail
        (log_image_displayed noFail db frame u d) frame u d) frame u d = 1 ∧
    at_most_one_per_key (log_image_displayed B db frame u d) := by
  constructor
  · by_cases hc : (db.display_logs.countP fun r =>
        r.uuid == u && r.display_date == d && r.frame_id == frame) = 0
    · have h1 : log_image_displayed noFail db frame u d
          = { db with display_logs := db.display_logs ++ [⟨u, d, frame⟩] } := by
        simp only [log_image_displayed, noFail, Bool.false_eq_true, if_false]
        rw [if_pos hc]
      have hcount1 : log_count { db with display_logs := db.display_logs ++ [⟨u, d, frame⟩] }
          frame u d = 1 := by
        simp [log_count, List.countP_append, List.countP_cons, hc]
      have h2 : log_image_displayed noFail
          { db with display_logs := db.display_logs ++ [⟨u, d, frame⟩] } frame u d
          = { db with display_logs := db.display_logs ++ [⟨u, d, frame⟩] } := by
        simp only [log_image_displayed, noFail, Bool.false_eq_true, if_false]
        rw [if_neg]
        intro hzero
        have : log_count { db with display_logs := db.display_logs ++ [⟨u, d, frame⟩] }
            frame u d = 0 := hzero
        omega
      rw [h1, h2, hcount1]
    · have h1 : log_image_displayed noFail db frame u d = db := by
        simp only [log_image_displayed, noFail, Bool.false_eq_true, if_false]
        rw [if_neg hc]
      rw [h1, h1]
      have hle := hinv frame u d
      have hne : log_count db frame u d ≠ 0 := hc
      omega
  · intro frame' u' d'
    by_cases hf : B.logFail
    · simp only [log_image_displayed, if_pos hf]
      exact hinv frame' u' d'
    · simp only [log_image_displayed, if_neg hf]
      by_cases hc : (db.display_logs.countP fun r =>
          r.uuid == u && r.display_date == d && r.frame_id == frame) = 0
      · rw [if_pos hc]
        by_cases h1 : u = u' <;> by_cases h2 : d = d' <;> by_cases h3 : frame = frame'
        · subst h1; subst h2; subst h3
          simp [log_count, List.countP_append, List.countP_cons, hc]
        all_goals
          have hold := hinv frame' u' d'
          simp only [log_count, List.countP_append, List.countP_cons, List.countP_nil] at hold ⊢
          simp [h1, h2, h3]
          omega
      · rw [if_neg hc]
        exact hinv frame' u' d'

/-- Witness for C5 starting from an empty Display Log. -/
theorem record_displayed_idempotent_witness :
    log_count (log_image_displayed noFail
        (log_image_displayed noFail ⟨[], []⟩ "frameA" "img1" 5) "frameA" "img1" 5)
      "frameA" "img1" 5 = 1 := by
  have h := record_displayed_idempotent noFail ⟨[], []⟩ "frameA" "img1" 5
    (by intro frame u d; simp [log_count])
  exact h.1

/-- C7: store-access failures during selection are absorbed as absence —
a failing catalog query returns the same result as a query over a catalog
with zero records, a failing query on a fallback day makes the backward
walk continue with the next day, and a store error inside
`wasDisplayedSince` makes it return `false` (the image counts as not
displayed). -/
theorem store_failures_absorbed (B : StoreBehavior) (db : DB)
    (frame : String) (cal : Int → String)
    (shuffle : List AssetRow → List AssetRow) (today : Int)
    (md u : String) (t : Int) (i remaining : Nat) :
    (B.queryFail md = true →
      query_images_by_month_day B cal db md
        = query_images_by_month_day noFail cal ⟨[], db.display_logs⟩ md) ∧
    (B.queryFail (cal (today - (i : Int))) = true →
      fallback_walk B db frame cal shuffle today i (remaining + 1)
        = fallback_walk B db frame cal shuffle today (i + 1) remaining) ∧
    (B.checkFail u = true →
      check_image_displayed_recently B db frame u t = false) := by
  refine ⟨fun hq => ?_, fun hq => ?_, fun hch => ?_⟩
  · simp [query_images_by_month_day, hq, noFail]
  · show (if (find_eligible_images_for_date B db frame cal today
        (cal (today - (i : Int))) IMAGE_REPEAT_THRESHOLD IMAGE_FALLBACK_LIMIT).isEmpty
      then fallback_walk B db frame cal shuffle today (i + 1) remaining
      else _) = _
    simp [find_eligible_images_for_date, query_images_by_month_day, hq]
  · simp [check_image_displayed_recently, hch]

/-- Witness for C7 with a store that fails every access. -/
theorem store_failures_absorbed_witness :
    check_image_displayed_recently ⟨fun _ => true, fun _ => true, false⟩
      ⟨[], [⟨"img1", 50, "frameA"⟩]⟩ "frameA" "img1" 0 = false := by
  have h := store_failures_absorbed ⟨fun _ => true, fun _ => true, false⟩
    ⟨[], [⟨"img1", 50, "frameA"⟩]⟩ "frameA" (fun _ => "01-01") id 0 "01-01" "img1" 0 1 0
  exact h.2.2 rfl

/-- Each branch of `eligible_scanM` hands back the store it was given. -/
lemma eligible_scanM_state (B : StoreBehavior) (frame : String)
    (threshold_date : Int) (limit : Nat) :
    ∀ (images elig : List AssetRow) (db : DB),
      (eligible_scanM B frame threshold_date limit elig images db).2 = db := by
  intro images
  induction images with
  | nil => intro elig db; rfl
  | cons img rest ih =>
    intro elig db
    unfold eligible_scanM
    dsimp only []
    split <;> split <;> first | rfl | exact ih _ _

/-- The eligibility pass for one fallback day hands back the store. -/
lemma find_eligible_images_for_dateM_state (B : StoreBehavior) (frame : String)
    (cal : Int → String) (today : Int) (md : String)
    (repeat_threshold_days limit : Nat) (db : DB) :
    (find_eligible_images_for_dateM B frame cal today md
      repeat_threshold_days limit db).2 = db := by
  show (if _ then _ else eligible_scanM B frame _ limit [] _ _).2 = db
  split
  · rfl
  · exact eligible_scanM_state B frame _ limit _ _ _

/-- The backward walk hands back the store. -/
lemma fallback_walkM_state (B : StoreBehavior) (frame : String)
    (cal : Int → String) (shuffle : List AssetRow → List AssetRow)
    (today : Int) :
    ∀ (remaining i : Nat) (db : DB),
      (fallback_walkM B frame cal shuffle today i remaining db).2 = db := by
  intro remaining
  induction remaining with
  | zero => intro i db; rfl
  | succ r ih =>
    intro i db
    show (if _ then fallback_walkM B frame cal shuffle today (i + 1) r _ else _).2 = db
    rw [find_eligible_images_for_dateM_state]
    split
    · rw [ih]
    · rfl

/-- C9: the Selector performs no writes — an entire
`find_images_for_today_and_fallback` pass, threading the store through
every query it issues, returns the Catalog Store and the Display Log
exactly as it received them. -/
theorem selector_performs_no_writes (B : StoreBehavior) (db : DB)
    (frame : String) (cal : Int → String)
    (shuffle : List AssetRow → List AssetRow) (today : Int) :
    (find_images_for_today_and_fallbackM B frame cal shuffle today db).2 = db := by
  show (if _ then fallback_walkM B frame cal shuffle today 1 IMAGE_FALLBACK_SEARCH_DAYS _
    else _).2 = db
  split
  · rw [fallback_walkM_state]
    rfl
  · rfl

/-- C1: whenever at least one catalog record shares today's month-day key
(records carrying a storage key, per the ImageRecord invariant), the
selection pass returns exactly those records — a permutation-free query
result never filtered by the Display Log — in creation-date-descending
order, with the fallback flag off, for every Display Log content. -/
theorem select_for_today_unfiltered (db : DB) (frame : String)
    (cal : Int → String) (shuffle : List AssetRow → List AssetRow)
    (today : Int)
    (hvalid : ∀ r ∈ db.assets, r.image_proxy_name.isSome = true)
    (hex : ∃ r ∈ db.assets, cal r.image_creation_date = cal today) :
    (find_images_for_today_and_fallback noFail db frame cal shuffle today).2 = false ∧
    (find_images_for_today_and_fallback noFail db frame cal shuffle today).1.Perm
      (db.assets.filter fun r => cal r.image_creation_date == cal today) ∧
    (find_images_for_today_and_fallback noFail db frame cal shuffle today).1.Sorted
      creationDesc := by
  have hfe : db.assets.filter (matchesMonthDay cal (cal today))
      = db.assets.filter fun r => cal r.image_creation_date == cal today := by
    apply List.filter_congr
    intro r hr
    simp [matchesMonthDay, hvalid r hr]
  have hq : query_images_by_month_day noFail cal db (cal today)
      = List.insertionSort creationDesc
          (db.assets.filter fun r => cal r.image_creation_date == cal today) := by
    simp [query_images_by_month_day, noFail, hfe]
  have hperm : (query_images_by_month_day noFail cal db (cal today)).Perm
      (db.assets.filter fun r => cal r.image_creation_date == cal today) := by
    rw [hq]
    exact List.perm_insertionSort _ _
  have hne : (query_images_by_month_day noFail cal db (cal today)).isEmpty = false := by
    obtain ⟨r, hr, hmd⟩ := hex
    have hmem : r ∈ query_images_by_month_day noFail cal db (cal today) := by
      rw [hq, List.mem_insertionSort, List.mem_filter]
      exact ⟨hr, by simp [hmd]⟩
    rcases hqe : (query_images_by_month_day noFail cal db (cal today)).isEmpty with _ | _
    · rfl
    · rw [List.isEmpty_iff] at hqe
      rw [hqe] at hmem
      cases hmem
  simp only [find_images_for_today_and_fallback, hne, Bool.false_eq_true, if_false]
  refine ⟨trivial, hperm, ?_⟩
  rw [hq]
  exact List.sorted_insertionSort _ _

/-- Witness for C1: a one-record catalog matching today's month-day. -/
theorem select_for_today_unfiltered_witness :
    (find_images_for_today_and_fallback noFail ⟨[⟨some "k", "u1", "n", 0⟩], []⟩
        "frameA" (fun _ => "01-01") id 0).2 = false ∧
    (find_images_for_today_and_fallback noFail ⟨[⟨some "k", "u1", "n", 0⟩], []⟩
        "frameA" (fun _ => "01-01") id 0).1.Perm
      (([⟨some "k", "u1", "n", 0⟩] : List AssetRow).filter fun r =>
        (fun _ : Int => "01-01") r.image_creation_date == (fun _ : Int => "01-01") (0 : Int)) ∧
    (find_images_for_today_and_fallback noFail ⟨[⟨some "k", "u1", "n", 0⟩], []⟩
        "frameA" (fun _ => "01-01") id 0).1.Sorted creationDesc :=
  select_for_today_unfiltered ⟨[⟨some "k", "u1", "n", 0⟩], []⟩ "frameA"
    (fun _ => "01-01") id 0 (by simp) ⟨⟨some "k", "u1", "n", 0⟩, by simp, rfl⟩

/-- Lists are non-empty exactly when `isEmpty` is `false`. -/
lemma isEmpty_false_of_ne_nil {α : Type} {l : List α} (h : l ≠ []) :
    l.isEmpty = false := by
  cases l with
  | nil => exact absurd rfl h
  | cons a t => rfl

/-- The scan loop of `find_eligible_images_for_date` computes a
filter-then-truncate: starting below the cap it appends, in order, the
not-recently-displayed rows until the cap is reached. -/
lemma eligible_scan_spec (B : StoreBehavior) (db : DB) (frame : String)
    (t : Int) (limit : Nat) :
    ∀ (images elig : List AssetRow), elig.length < limit →
      eligible_scan B db frame t limit elig images
        = elig ++ (images.filter fun r =>
            !check_image_displayed_recently B db frame r.uuid t).take
              (limit - elig.length) := by
  intro images
  induction images with
  | nil =>
    intro elig h
    simp [eligible_scan]
  | cons img rest ih =>
    intro elig h
    unfold eligible_scan
    dsimp only []
    by_cases hdisp : check_image_displayed_recently B db frame img.uuid t = true
    · rw [if_pos hdisp, if_neg (by omega : ¬ limit ≤ elig.length), ih elig h]
      simp [List.filter_cons, hdisp]
    · rw [if_neg hdisp]
      by_cases hlim : limit ≤ (elig ++ [img]).length
      · rw [if_pos hlim]
        have hl : limit - elig.length = 1 := by
          simp only [List.length_append, List.length_singleton] at hlim
          omega
        simp [List.filter_cons, hdisp, hl]
      · rw [if_neg hlim]
        have hlt : (elig ++ [img]).length < limit := lt_of_not_le hlim
        rw [ih (elig ++ [img]) hlt]
        simp only [List.filter_cons, hdisp, Bool.not_false, if_true,
          List.length_append, List.length_singleton]
        rw [List.append_assoc]
        congr 1
        have hsplit : limit - elig.length = (limit - (elig.length + 1)) + 1 := by omega
        rw [hsplit, List.take_succ_cons]
        rfl

/-- `find_eligible_images_for_date` equals creation-date-descending
truncation of the eligible rows: filter the (sorted) query result by
"not displayed since `today - window`" and keep the first `limit`. -/
lemma find_eligible_images_for_date_spec (B : StoreBehavior) (db : DB)
    (frame : String) (cal : Int → String) (today : Int) (md : String)
    (rt limit : Nat) (hlim : 0 < limit) :
    find_eligible_images_for_date B db frame cal today md rt limit
      = ((query_images_by_month_day B cal db md).filter fun r =>
          !check_image_displayed_recently B db frame r.uuid
            (today - (rt : Int))).take limit := by
  unfold find_eligible_images_for_date
  dsimp only []
  by_cases he : (query_images_by_month_day B cal db md).isEmpty = true
  · rw [if_pos he]
    rw [List.isEmpty_iff] at he
    rw [he]
    simp
  · rw [if_neg he]
    rw [eligible_scan_spec B db frame _ limit _ [] (by simpa using hlim)]
    simp

/-- Eligible candidate list the fallback walk inspects at backward offset
`j`: the capped scan for the month-day of `today - j`. -/
def fallback_candidates (B : StoreBehavior) (db : DB) (frame : String)
    (cal : Int → String) (today : Int) (j : Nat) : List AssetRow :=
  find_eligible_images_for_date B db frame cal today (cal (today - (j : Int)))
    IMAGE_REPEAT_THRESHOLD IMAGE_FALLBACK_LIMIT

/-- The backward walk stops at the first offset with a non-empty candidate
list and returns it shuffled. -/
lemma fallback_walk_first_hit (B : StoreBehavior) (db : DB) (frame : String)
    (cal : Int → String) (shuffle : List AssetRow → List AssetRow)
    (today : Int) :
    ∀ (remaining i i₀ : Nat), i ≤ i₀ → i₀ < i + remaining →
      (∀ j, i ≤ j → j < i₀ → fallback_candidates B db frame cal today j = []) →
      fallback_candidates B db frame cal today i₀ ≠ [] →
      fallback_walk B db frame cal shuffle today i remaining
        = (shuffle (fallback_candidates B db frame cal today i₀), true) := by
  intro remaining
  induction remaining with
  | zero =>
    intro i i₀ hle hlt _ _
    omega
  | succ r ih =>
    intro i i₀ hle hlt hempty hhit
    show (if (fallback_candidates B db frame cal today i).isEmpty = true
      then fallback_walk B db frame cal shuffle today (i + 1) r
      else (shuffle (fallback_candidates B db frame cal today i), true)) = _
    rcases eq_or_lt_of_le hle with heq | hlt2
    · subst heq
      rw [if_neg (by rw [isEmpty_false_of_ne_nil hhit]; exact Bool.false_ne_true)]
    · have hnil : fallback_candidates B db frame cal today i = [] :=
        hempty i le_rfl hlt2
      rw [if_pos (by rw [hnil]; rfl)]
      exact ih (i + 1) i₀ hlt2 (by omega)
        (fun j hj1 hj2 => hempty j (by omega) hj2) hhit

/-- C2: with zero same-month-day catalog records, selection walks backward
day by day within the 30-day horizon and, at the most recent prior day
whose candidate list is non-empty, returns at most the cap (5) of rows
chosen by creation-date-descending truncation of the eligible rows (those
with no Display Log entry for this device on or after `today - 10`) before
the shuffle, with the fallback flag on; the shuffle only permutes, so the
returned multiset equals the truncated eligible set. -/
theorem select_for_today_fallback (db : DB) (frame : String)
    (cal : Int → String) (shuffle : List AssetRow → List AssetRow)
    (today : Int) (i₀ : Nat)
    (hsh : ∀ l : List AssetRow, (shuffle l).Perm l)
    (hnone : db.assets.filter (matchesMonthDay cal (cal today)) = [])
    (h1 : 1 ≤ i₀) (h30 : i₀ ≤ IMAGE_FALLBACK_SEARCH_DAYS)
    (hhit : fallback_candidates noFail db frame cal today i₀ ≠ [])
    (hmin : ∀ j, 1 ≤ j → j < i₀ →
      fallback_candidates noFail db frame cal today j = []) :
    (find_images_for_today_and_fallback noFail db frame cal shuffle today).2 = true ∧
    (find_images_for_today_and_fallback noFail db frame cal shuffle today).1
      = shuffle (fallback_candidates noFail db frame cal today i₀) ∧
    (find_images_for_today_and_fallback noFail db frame cal shuffle today).1.Perm
      (((query_images_by_month_day noFail cal db (cal (today - (i₀ : Int)))).filter
          fun r => !check_image_displayed_recently noFail db frame r.uuid
            (today - (IMAGE_REPEAT_THRESHOLD : Int))).take IMAGE_FALLBACK_LIMIT) ∧
    (find_images_for_today_and_fallback noFail db frame cal shuffle today).1.length
      ≤ IMAGE_FALLBACK_LIMIT := by
  have hq : (query_images_by_month_day noFail cal db (cal today)).isEmpty = true := by
    simp [query_images_by_month_day, noFail, hnone]
  have hdays : IMAGE_FALLBACK_SEARCH_DAYS = 30 := rfl
  have hwalk := fallback_walk_first_hit noFail db frame cal shuffle today
    IMAGE_FALLBACK_SEARCH_DAYS 1 i₀ h1 (by omega) hmin hhit
  have hfi : find_images_for_today_and_fallback noFail db frame cal shuffle today
      = (shuffle (fallback_candidates noFail db frame cal today i₀), true) := by
    rw [← hwalk]
    simp only [find_images_for_today_and_fallback, hq, if_true]
  have hcand : fallback_candidates noFail db frame cal today i₀
      = ((query_images_by_month_day noFail cal db (cal (today - (i₀ : Int)))).filter
          fun r => !check_image_displayed_recently noFail db frame r.uuid
            (today - (IMAGE_REPEAT_THRESHOLD : Int))).take IMAGE_FALLBACK_LIMIT :=
    find_eligible_images_for_date_spec noFail db frame cal today
      (cal (today - (i₀ : Int))) IMAGE_REPEAT_THRESHOLD IMAGE_FALLBACK_LIMIT
      (by decide)
  rw [hfi]
  refine ⟨rfl, rfl, ?_, ?_⟩
  · rw [← hcand]
    exact hsh _
  · have hlen : (shuffle (fallback_candidates noFail db frame cal today i₀)).length
        = (fallback_candidates noFail db frame cal today i₀).length :=
      (hsh _).length_eq
    show (shuffle (fallback_candidates noFail db frame cal today i₀)).length
      ≤ IMAGE_FALLBACK_LIMIT
    rw [hlen, hcand]
    exact List.length_take_le _ _

/-- Witness for C2: one catalog record dated one day before an otherwise
empty "today", hit at backward offset 1. -/
theorem select_for_today_fallback_witness :
    (find_images_for_today_and_fallback noFail ⟨[⟨some "k", "u1", "n", -1⟩], []⟩
        "frameA" (fun d => toString d) id 0).2 = true ∧
    (find_images_for_today_and_fallback noFail ⟨[⟨some "k", "u1", "n", -1⟩], []⟩
        "frameA" (fun d => toString d) id 0).1
      = id (fallback_candidates noFail ⟨[⟨some "k", "u1", "n", -1⟩], []⟩
          "frameA" (fun d => toString d) 0 1) ∧
    (find_images_for_today_and_fallback noFail ⟨[⟨some "k", "u1", "n", -1⟩], []⟩
        "frameA" (fun d => toString d) id 0).1.Perm
      (((query_images_by_month_day noFail (fun d => toString d)
          ⟨[⟨some "k", "u1", "n", -1⟩], []⟩ (toString ((0 : Int) - (1 : Nat)))).filter
          fun r => !check_image_displayed_recently noFail
            ⟨[⟨some "k", "u1", "n", -1⟩], []⟩ "frameA" r.uuid
            ((0 : Int) - (IMAGE_REPEAT_THRESHOLD : Int))).take IMAGE_FALLBACK_LIMIT) ∧
    (find_images_for_today_and_fallback noFail ⟨[⟨some "k", "u1", "n", -1⟩], []⟩
        "frameA" (fun d => toString d) id 0).1.length ≤ IMAGE_FALLBACK_LIMIT :=
  select_for_today_fallback ⟨[⟨some "k", "u1", "n", -1⟩], []⟩ "frameA"
    (fun d => toString d) id 0 1 (fun l => List.Perm.refl l) (by decide)
    le_rfl (by decide) (by decide) (fun j hj1 hj2 => absurd (lt_of_le_of_lt hj1 hj2) (lt_irrefl 1))

/-- The rounded aspect dimension is at least 1 (the `max(..., 1)` clamp). -/
lemma round_aspect_ge_one (n : ℚ) (k : ℤ → ℚ) : 1 ≤ round_aspect n k := by
  unfold round_aspect
  exact le_max_right _ 1

/-- The rounded aspect dimension never exceeds an integer bound that is at
least 1 and at least `n`. -/
lemma round_aspect_le (n : ℚ) (k : ℤ → ℚ) (m : ℤ) (hm1 : 1 ≤ m)
    (hnm : n ≤ (m : ℚ)) : round_aspect n k ≤ m := by
  unfold round_aspect
  apply max_le _ hm1
  have hceil : ⌈n⌉ ≤ m := Int.ceil_le.mpr hnm
  split
  · exact le_trans (Int.floor_le_ceil n) hceil
  · exact hceil

/-- The rounded aspect dimension is within 1 of the exact value when the
exact value is positive (floor and ceiling are both within 1, and the
clamp to 1 only fires when the exact value lies in `(0, 1)`). -/
lemma round_aspect_close (n : ℚ) (k : ℤ → ℚ) (hn : 0 < n) :
    |((round_aspect n k : ℤ) : ℚ) - n| ≤ 1 := by
  unfold round_aspect
  have hfloor : (⌊n⌋ : ℚ) ≤ n := Int.floor_le n
  have hfloor2 : n < ⌊n⌋ + 1 := Int.lt_floor_add_one n
  have hceil : n ≤ (⌈n⌉ : ℚ) := Int.le_ceil n
  have hceil2 : (⌈n⌉ : ℚ) < n + 1 := Int.ceil_lt_add_one n
  have hceilpos : 1 ≤ ⌈n⌉ := Int.ceil_pos.mpr hn
  set v := if k ⌊n⌋ ≤ k ⌈n⌉ then ⌊n⌋ else ⌈n⌉ with hv
  have hvcases : v = ⌊n⌋ ∨ v = ⌈n⌉ := by
    rw [hv]
    split
    · exact Or.inl rfl
    · exact Or.inr rfl
  by_cases h1 : 1 ≤ v
  · rw [max_eq_left h1]
    rcases hvcases with hc | hc <;> rw [hc] <;> rw [abs_le] <;>
      exact ⟨by linarith, by linarith⟩
  · rw [max_eq_right (le_of_not_le h1)]
    have hvf : v = ⌊n⌋ := by
      rcases hvcases with hc | hc
      · exact hc
      · exact absurd (hc ▸ hceilpos) h1
    have hfl0 : ⌊n⌋ ≤ 0 := by
      have := lt_of_not_le h1
      omega
    have hfl0q : (⌊n⌋ : ℚ) ≤ 0 := by exact_mod_cast hfl0
    rw [abs_le]
    constructor
    · push_cast
      linarith
    · push_cast
      linarith

/-- Geometry of the thumbnail fit: the fitted size is positive, never
enlarges the source, fits inside the target box, keeps the binding target
dimension exactly whenever the source exceeds the box, and preserves the
aspect ratio within one pixel of rounding. -/
lemma thumbnail_size_spec (w h tw th : ℤ)
    (hw : 1 ≤ w) (hh : 1 ≤ h) (htw : 1 ≤ tw) (hth : 1 ≤ th) :
    1 ≤ (thumbnail_size w h tw th).1 ∧ 1 ≤ (thumbnail_size w h tw th).2 ∧
    (thumbnail_size w h tw th).1 ≤ w ∧ (thumbnail_size w h tw th).2 ≤ h ∧
    (thumbnail_size w h tw th).1 ≤ tw ∧ (thumbnail_size w h tw th).2 ≤ th ∧
    ((tw < w ∨ th < h) →
      (th * w ≤ tw * h → (thumbnail_size w h tw th).2 = th) ∧
      (tw * h < th * w → (thumbnail_size w h tw th).1 = tw)) ∧
    |(thumbnail_size w h tw th).1 * h - (thumbnail_size w h tw th).2 * w|
      ≤ max w h := by
  have hW : (0 : ℚ) < (w : ℚ) := by exact_mod_cast lt_of_lt_of_le Int.zero_lt_one hw
  have hH : (0 : ℚ) < (h : ℚ) := by exact_mod_cast lt_of_lt_of_le Int.zero_lt_one hh
  have hTW : (0 : ℚ) < (tw : ℚ) := by exact_mod_cast lt_of_lt_of_le Int.zero_lt_one htw
  have hTH : (0 : ℚ) < (th : ℚ) := by exact_mod_cast lt_of_lt_of_le Int.zero_lt_one hth
  by_cases hguard : tw ≥ w ∧ th ≥ h
  · have heq : thumbnail_size w h tw th = (w, h) := by
      unfold thumbnail_size
      rw [if_pos hguard]
    rw [heq]
    refine ⟨hw, hh, le_refl w, le_refl h, hguard.1, hguard.2, fun hbig => ?_, ?_⟩
    · rcases hbig with hb | hb
      · exact absurd hguard.1 (not_le.mpr hb)
      · exact absurd hguard.2 (not_le.mpr hb)
    · rw [mul_comm w h, sub_self, abs_zero]
      exact le_max_iff.mpr (Or.inl (by omega))
  · by_cases hcond : (tw : ℚ) / (th : ℚ) ≥ (w : ℚ) / (h : ℚ)
    · -- keep the target height, round the width from th * aspect
      have heq : thumbnail_size w h tw th
          = (round_aspect ((th : ℚ) * ((w : ℚ) / (h : ℚ)))
              (fun m => |(w : ℚ) / (h : ℚ) - (m : ℚ) / (th : ℚ)|), th) := by
        unfold thumbnail_size
        rw [if_neg hguard]
        dsimp only []
        rw [if_pos hcond]
      have h2 : (w : ℚ) * th ≤ (tw : ℚ) * h := by
        rw [ge_iff_le, div_le_div_iff hH hTH] at hcond
        exact hcond
      have hth_le : th ≤ h := by
        by_contra hc
        push_neg at hc
        have h3 : (h : ℚ) < th := by exact_mod_cast hc
        have h4 : (w : ℚ) < tw := by nlinarith
        have h5 : w < tw := by exact_mod_cast h4
        exact hguard ⟨by omega, by omega⟩
      have hn_pos : 0 < (th : ℚ) * ((w : ℚ) / (h : ℚ)) := mul_pos hTH (div_pos hW hH)
      have hn_le_tw : (th : ℚ) * ((w : ℚ) / (h : ℚ)) ≤ (tw : ℚ) := by
        rw [← mul_div_assoc, div_le_iff hH]
        nlinarith
      have hn_le_w : (th : ℚ) * ((w : ℚ) / (h : ℚ)) ≤ (w : ℚ) := by
        have h3 : (th : ℚ) ≤ (h : ℚ) := by exact_mod_cast hth_le
        rw [← mul_div_assoc, div_le_iff hH]
        nlinarith
      rw [heq]
      refine ⟨round_aspect_ge_one _ _, hth, round_aspect_le _ _ w hw hn_le_w,
        hth_le, round_aspect_le _ _ tw htw hn_le_tw, le_refl th, fun _ => ?_, ?_⟩
      · refine ⟨fun _ => rfl, fun hante => ?_⟩
        have h2i : w * th ≤ tw * h := by exact_mod_cast h2
        rw [mul_comm th w] at hante
        exact absurd hante (not_lt.mpr h2i)
      · have hclose := round_aspect_close ((th : ℚ) * ((w : ℚ) / (h : ℚ)))
          (fun m => |(w : ℚ) / (h : ℚ) - (m : ℚ) / (th : ℚ)|) hn_pos
        have hnH : ((th : ℚ) * ((w : ℚ) / (h : ℚ))) * (h : ℚ) = (th : ℚ) * w := by
          field_simp
        set F : ℤ := round_aspect ((th : ℚ) * ((w : ℚ) / (h : ℚ)))
          (fun m => |(w : ℚ) / (h : ℚ) - (m : ℚ) / (th : ℚ)|) with hF
        have habs : |(F : ℚ) * h - (th : ℚ) * w| ≤ (h : ℚ) := by
          calc |(F : ℚ) * h - (th : ℚ) * w|
              = |((F : ℚ) - (th : ℚ) * ((w : ℚ) / (h : ℚ))) * h| := by rw [sub_mul, hnH]
            _ = |(F : ℚ) - (th : ℚ) * ((w : ℚ) / (h : ℚ))| * |(h : ℚ)| := abs_mul _ _
            _ ≤ 1 * (h : ℚ) := by
                rw [abs_of_pos hH]
                exact mul_le_mul_of_nonneg_right hclose (le_of_lt hH)
            _ = (h : ℚ) := one_mul _
        have hint : |F * h - th * w| ≤ h := by exact_mod_cast habs
        exact le_trans hint (le_max_right w h)
    · -- keep the target width, round the height from tw / aspect
      have heq : thumbnail_size w h tw th
          = (tw, round_aspect ((tw : ℚ) / ((w : ℚ) / (h : ℚ)))
              (fun m => if m = 0 then 0
                else |(w : ℚ) / (h : ℚ) - (tw : ℚ) / (m : ℚ)|)) := by
        unfold thumbnail_size
        rw [if_neg hguard]
        dsimp only []
        rw [if_neg hcond]
      have h2 : (tw : ℚ) * h < (th : ℚ) * w := by
        rw [not_le] at hcond
        rw [div_lt_div_iff hTH hH] at hcond
        linarith [hcond, mul_comm (w : ℚ) (th : ℚ)]
      have htw_le : tw ≤ w := by
        by_contra hc
        push_neg at hc
        have h3 : (w : ℚ) < tw := by exact_mod_cast hc
        have h4 : (h : ℚ) < th := by nlinarith
        have h5 : h < th := by exact_mod_cast h4
        exact hguard ⟨by omega, by omega⟩
      have hn_eq : (tw : ℚ) / ((w : ℚ) / (h : ℚ)) = (tw : ℚ) * h / w := by
        field_simp
      have hn_pos : 0 < (tw : ℚ) / ((w : ℚ) / (h : ℚ)) := by
        rw [hn_eq]
        exact div_pos (mul_pos hTW hH) hW
      have hn_le_th : (tw : ℚ) / ((w : ℚ) / (h : ℚ)) ≤ (th : ℚ) := by
        rw [hn_eq, div_le_iff hW]
        nlinarith
      have hn_le_h : (tw : ℚ) / ((w : ℚ) / (h : ℚ)) ≤ (h : ℚ) := by
        have h3 : (tw : ℚ) ≤ (w : ℚ) := by exact_mod_cast htw_le
        rw [hn_eq, div_le_iff hW]
        nlinarith
      rw [heq]
      refine ⟨htw, round_aspect_ge_one _ _, htw_le,
        round_aspect_le _ _ h hh hn_le_h, le_refl tw,
        round_aspect_le _ _ th hth hn_le_th, fun _ => ?_, ?_⟩
      · refine ⟨fun hante => ?_, fun _ => rfl⟩
        have h2i : tw * h < th * w := by exact_mod_cast h2
        omega
      · have hclose := round_aspect_close ((tw : ℚ) / ((w : ℚ) / (h : ℚ)))
          (fun m => if m = 0 then 0
            else |(w : ℚ) / (h : ℚ) - (tw : ℚ) / (m : ℚ)|) hn_pos
        have hnW : ((tw : ℚ) / ((w : ℚ) / (h : ℚ))) * (w : ℚ) = (tw : ℚ) * h := by
          rw [hn_eq]
          field_simp
        set F : ℤ := round_aspect ((tw : ℚ) / ((w : ℚ) / (h : ℚ)))
          (fun m => if m = 0 then 0
            else |(w : ℚ) / (h : ℚ) - (tw : ℚ) / (m : ℚ)|) with hF
        have habs : |(tw : ℚ) * h - (F : ℚ) * w| ≤ (w : ℚ) := by
          rw [abs_sub_comm]
          calc |(F : ℚ) * w - (tw : ℚ) * h|
              = |((F : ℚ) - (tw : ℚ) / ((w : ℚ) / (h : ℚ))) * w| := by rw [sub_mul, hnW]
            _ = |(F : ℚ) - (tw : ℚ) / ((w : ℚ) / (h : ℚ))| * |(w : ℚ)| := abs_mul _ _
            _ ≤ 1 * (w : ℚ) := by
                rw [abs_of_pos hW]
                exact mul_le_mul_of_nonneg_right hclose (le_of_lt hW)
            _ = (w : ℚ) := one_mul _
        have hint : |tw * h - F * w| ≤ w := by exact_mod_cast habs
        exact le_trans hint (le_max_left w h)

/-- C4: `resize_image` always produces a canvas of exactly the target
resolution with the image shrunk — never enlarged — to fit inside it and
centered by the floor-division offsets; whenever the source exceeds the
target in a dimension, the binding dimension of the fitted image equals the
canvas dimension exactly, and the width/height aspect ratio is preserved
within rounding (cross-products differ by at most one source pixel edge). -/
theorem resize_image_fit_spec (w h tw th : ℤ)
    (hw : 1 ≤ w) (hh : 1 ≤ h) (htw : 1 ≤ tw) (hth : 1 ≤ th) :
    (resize_image w h tw th).canvasW = tw ∧
    (resize_image w h tw th).canvasH = th ∧
    (resize_image w h tw th).xOffset = (tw - (resize_image w h tw th).fitW) / 2 ∧
    (resize_image w h tw th).yOffset = (th - (resize_image w h tw th).fitH) / 2 ∧
    1 ≤ (resize_image w h tw th).fitW ∧ 1 ≤ (resize_image w h tw th).fitH ∧
    (resize_image w h tw th).fitW ≤ w ∧ (resize_image w h tw th).fitH ≤ h ∧
    (resize_image w h tw th).fitW ≤ tw ∧ (resize_image w h tw th).fitH ≤ th ∧
    ((tw < w ∨ th < h) →
      (th * w ≤ tw * h → (resize_image w h tw th).fitH = th) ∧
      (tw * h < th * w → (resize_image w h tw th).fitW = tw)) ∧
    |(resize_image w h tw th).fitW * h - (resize_image w h tw th).fitH * w|
      ≤ max w h := by
  obtain ⟨c1, c2, c3, c4, c5, c6, c7, c8⟩ := thumbnail_size_spec w h tw th hw hh htw hth
  exact ⟨rfl, rfl, rfl, rfl, c1, c2, c3, c4, c5, c6, c7, c8⟩

/-- Witness for C4 on a 1600x960 source and the 800x480 panel. -/
theorem resize_image_fit_spec_witness :
    (resize_image 1600 960 800 480).canvasW = 800 ∧
    (resize_image 1600 960 800 480).canvasH = 480 ∧
    (resize_image 1600 960 800 480).xOffset
      = (800 - (resize_image 1600 960 800 480).fitW) / 2 ∧
    (resize_image 1600 960 800 480).yOffset
      = (480 - (resize_image 1600 960 800 480).fitH) / 2 ∧
    1 ≤ (resize_image 1600 960 800 480).fitW ∧
    1 ≤ (resize_image 1600 960 800 480).fitH ∧
    (resize_image 1600 960 800 480).fitW ≤ 1600 ∧
    (resize_image 1600 960 800 480).fitH ≤ 960 ∧
    (resize_image 1600 960 800 480).fitW ≤ 800 ∧
    (resize_image 1600 960 800 480).fitH ≤ 480 ∧
    (((800 : ℤ) < 1600 ∨ (480 : ℤ) < 960) →
      ((480 : ℤ) * 1600 ≤ 800 * 960 → (resize_image 1600 960 800 480).fitH = 480) ∧
      ((800 : ℤ) * 960 < 480 * 1600 → (resize_image 1600 960 800 480).fitW = 800)) ∧
    |(resize_image 1600 960 800 480).fitW * 960
      - (resize_image 1600 960 800 480).fitH * 1600| ≤ max 1600 960 :=
  resize_image_fit_spec 1600 960 800 480 (by decide) (by decide) (by decide) (by decide)
